import Mathlib

/-!
# Verification of the emotion-analysis pipeline

A shallow embedding of the segmentation → scoring → aggregation pipeline of
the Emotion Heatmap Generator (`src/main.py`).  Python floats are modelled as
rationals (`ℚ`), python dicts as association lists, raised exceptions as
`Except` errors.  The pandas operations used by `main.py`
(`pd.DataFrame(list-of-dicts)`, `.mean()`, `.idxmax()`, `.to_csv(index=False)`)
are embedded by their documented semantics: column order is first-seen key
order, a key missing from a row is a NaN cell (here `Option.none`), `mean`
skips NaN cells, `idxmax` returns the first index attaining the maximum and
raises on an empty series.

The segmenter (`youtube_processor.extract_speech_segments`) is not part of the
sources; it is modelled from the spec where needed (see its doc comment).
-/

namespace EmotionHeatmap

/-- A transcribed, timestamped unit of speech (spec §3, produced by the
external transcription collaborator). -/
structure Utterance where
  start_time : ℚ
  end_time : ℚ
  text : String

/-- A fixed-duration analysis window.  `main.py` reads `segment['timestamp']`
and `segment['text']`; the spec additionally gives `index` and `duration`. -/
structure Segment where
  index : ℕ
  timestamp : ℚ
  text : String
  duration : ℚ

/-- An emotion distribution: the dict returned by
`emotion_analyzer.analyze_emotions`, as an association list. -/
abbrev Dist := List (String × ℚ)

/-- The ways the embedded pipeline can fail: a python exception escaping a
scorer call, the `ValueError` raised by `idxmax` on an empty series, and the
spec's `InvalidConfiguration` for an out-of-range window length. -/
inductive PipeError where
  | invalidConfiguration
  | scoringFailed (msg : String)
  | emptyArgmax
deriving DecidableEq

/-- One row of `emotion_results` (`main.py` lines 92-96):
`{'timestamp': ..., 'text': ..., **emotions}`. -/
structure AnalysisRecord where
  timestamp : ℚ
  text : String
  emotions : Dist

/-- The scoring loop of `main.py` lines 87-97.  Each segment's text is scored
in order; a python exception from `analyze_emotions` propagates out of the
loop (there is no per-segment handler), discarding the records accumulated so
far. -/
def scoreSegments (scorer : String → Except PipeError Dist) :
    List Segment → Except PipeError (List AnalysisRecord)
  | [] => .ok []
  | s :: rest =>
    match scorer s.text, scoreSegments scorer rest with
    | .error e, _ => .error e
    | .ok _, .error e => .error e
    | .ok emo, .ok rs =>
        .ok ({ timestamp := s.timestamp, text := s.text, emotions := emo } :: rs)

/-- Python dict lookup on an association list (first binding wins, as in a
dict there is at most one). -/
def alookup (l : String) : Dist → Option ℚ
  | [] => none
  | p :: ps => if p.1 = l then some p.2 else alookup l ps

/-- The keys of one record's emotion dict. -/
def recKeys (r : AnalysisRecord) : List String := r.emotions.map Prod.fst

/-- Append a key if it has not been seen yet (order of first appearance). -/
def addKey (acc : List String) (k : String) : List String :=
  if k ∈ acc then acc else acc ++ [k]

/-- All emotion keys of all records, in row-major input order. -/
def allKeys (rs : List AnalysisRecord) : List String := (rs.map recKeys).flatten

/-- The emotion columns of `pd.DataFrame(emotion_results)` as read back by
`emotion_cols = [col for col in df.columns if col not in ['timestamp','text']]`
(`main.py` lines 100 and 109): the union of the rows' keys in first-seen
order. -/
def emotion_cols (rs : List AnalysisRecord) : List String :=
  (allKeys rs).foldl addKey []

/-- A cell of the DataFrame: `none` models pandas `NaN` (a key absent from
that row's dict). -/
def dfCell (rs : List AnalysisRecord) (i : ℕ) (l : String) : Option ℚ :=
  match rs[i]? with
  | some r => alookup l r.emotions
  | none => none

/-- The non-NaN entries of one column. -/
def colValues (rs : List AnalysisRecord) (l : String) : List ℚ :=
  rs.filterMap (fun r => alookup l r.emotions)

/-- `df[emotion_cols].mean()` for one column: pandas skips NaN cells and
yields NaN for an all-NaN column. -/
def colMean (rs : List AnalysisRecord) (l : String) : Option ℚ :=
  if colValues rs l = [] then none
  else some ((colValues rs l).sum / ((colValues rs l).length : ℚ))

/-- The `avg_emotions` series (`main.py` line 110), in column order. -/
def meanPairs (rs : List AnalysisRecord) : List (String × Option ℚ) :=
  (emotion_cols rs).map (fun l => (l, colMean rs l))

/-- The series with NaN entries dropped, as `idxmax` (skipna) sees it. -/
def scoredPairs (rs : List AnalysisRecord) : List (String × ℚ) :=
  (meanPairs rs).filterMap (fun p => p.2.map (fun v => (p.1, v)))

/-- The scan performed by `Series.idxmax`: keep the current best, replace it
only on a strictly larger value, so the first maximum wins. -/
def idxmaxGo (best : String × ℚ) : List (String × ℚ) → String × ℚ
  | [] => best
  | p :: ps => idxmaxGo (if best.2 < p.2 then p else best) ps

/-- `dominant_emotion = avg_emotions.idxmax()` (`main.py` line 111).  On an
empty series pandas raises `ValueError: attempt to get argmax of an empty
sequence`. -/
def dominant_emotion (rs : List AnalysisRecord) : Except PipeError String :=
  match scoredPairs rs with
  | [] => .error .emptyArgmax
  | p :: ps => .ok (idxmaxGo p ps).1

/-- Modelled from the spec: the aggregated row of the table handed to the
MatrixBuilder, in the table's canonical column order; a label missing from
the record's distribution is filled with 0.0 (spec §4.3). -/
def rawRow (cols : List String) (es : Dist) : List ℚ :=
  cols.map (fun l => (alookup l es).getD 0)

/-- Modelled from the spec: the MatrixBuilder's defensive row
re-normalization (spec §4.4): if a row's values do not sum to 1.0 ± 1e-3,
scale the row so it does, unless the row is all-zero, in which case it is
left as all-zero. -/
def normalizeRow (row : List ℚ) : List ℚ :=
  if |row.sum - 1| < 1/1000 then row
  else if ∀ v ∈ row, v = 0 then row
  else row.map (fun v => v / row.sum)

/-- Modelled from the spec: `heatmap_generator.create_heatmap` (the
MatrixBuilder, called at `main.py` line 104) is not among the sources.
Spec §4.4: the matrix has one row per table record, in table order, each
row being the record's scores in canonical column order after the
re-normalization above. -/
def build_matrix (rs : List AnalysisRecord) : List (List ℚ) :=
  rs.map (fun r => normalizeRow (rawRow (emotion_cols rs) r.emotions))

/-! ## Numeral rendering and parsing for the CSV export

`df.to_csv` renders numeric cells as text.  Floats are modelled as rationals,
so the renderer emits the exact value as `num/den` (with `-` for negatives)
and the parser inverts it; NaN cells are rendered as the empty cell, exactly
as pandas does. -/

/-- The character of a decimal digit. -/
def digitChar (d : ℕ) : Char := Char.ofNat (48 + d)

/-- The decimal digit of a character. -/
def charDigit (c : Char) : ℕ := c.toNat - 48

/-- Little-endian decimal digits of `n`, with explicit fuel so that the
recursion is structural. -/
def natDigitsAux : ℕ → ℕ → List Char
  | 0, _ => []
  | _ + 1, 0 => []
  | fuel + 1, n + 1 => digitChar ((n + 1) % 10) :: natDigitsAux fuel ((n + 1) / 10)

/-- Decimal rendering of a natural number. -/
def natToChars (n : ℕ) : List Char :=
  if n = 0 then ['0'] else (natDigitsAux n n).reverse

/-- Decimal parsing of a natural number. -/
def charsToNat (l : List Char) : ℕ :=
  l.foldl (fun a c => 10 * a + charDigit c) 0

/-- Decimal rendering of an integer. -/
def intToChars : ℤ → List Char
  | .ofNat n => natToChars n
  | .negSucc n => '-' :: natToChars (n + 1)

/-- Decimal parsing of an integer. -/
def charsToInt : List Char → ℤ
  | [] => 0
  | c :: cs => if c = '-' then -(charsToNat cs : ℤ) else (charsToNat (c :: cs) : ℤ)

/-- Exact rendering of a rational as `num/den`. -/
def ratToChars (q : ℚ) : List Char := intToChars q.num ++ '/' :: natToChars q.den

/-- Exact rendering of a rational as a string. -/
def ratToStr (q : ℚ) : String := String.mk (ratToChars q)

/-- Everything before the first slash. -/
def splitSlashPre : List Char → List Char
  | [] => []
  | c :: cs => if c = '/' then [] else c :: splitSlashPre cs

/-- Everything after the first slash, if any. -/
def splitSlashPost : List Char → Option (List Char)
  | [] => none
  | c :: cs => if c = '/' then some cs else splitSlashPost cs

/-- Parsing of a rendered rational. -/
def parseRat (s : String) : ℚ :=
  match splitSlashPost s.data with
  | none => (charsToInt s.data : ℚ)
  | some d => (charsToInt (splitSlashPre s.data) : ℚ) / (charsToNat d : ℚ)

/-- A numeric CSV cell; pandas writes NaN as the empty cell. -/
def csvCell : Option ℚ → String
  | none => ""
  | some q => ratToStr q

/-- One data row of `df.to_csv(index=False)`: the `timestamp` cell, the `text`
cell, then one cell per emotion column. -/
def csvRow (cols : List String) (r : AnalysisRecord) : List String :=
  ratToStr r.timestamp :: r.text :: cols.map (fun l => csvCell (alookup l r.emotions))

/-- `csv_data = df.to_csv(index=False)` (`main.py` line 135), at the level of
rows of cells: a header row (no `index` column) followed by one row per
record. -/
def to_csv (rs : List AnalysisRecord) : List (List String) :=
  ("timestamp" :: "text" :: emotion_cols rs) :: rs.map (csvRow (emotion_cols rs))

/-- A parsed CSV data row. -/
structure ParsedRow where
  timestamp : ℚ
  text : String
  emotions : Dist

/-- Parse one value cell; the empty cell is NaN/missing. -/
def parseCell (s : String) : Option ℚ :=
  if s = "" then none else some (parseRat s)

/-- Parse one data row against the label list taken from the header. -/
def parseRow (labels : List String) : List String → Option ParsedRow
  | tsc :: txt :: cells =>
      some { timestamp := parseRat tsc, text := txt,
             emotions := (labels.zip cells).filterMap
               (fun p => (parseCell p.2).map (fun v => (p.1, v))) }
  | _ => none

/-- Parse all data rows. -/
def parseRows (labels : List String) : List (List String) → Option (List ParsedRow)
  | [] => some []
  | row :: rest =>
    match parseRow labels row, parseRows labels rest with
    | some p, some ps => some (p :: ps)
    | _, _ => none

/-- Re-parse an exported table: the labels are the header columns after
`timestamp` and `text`. -/
def parseCsv : List (List String) → Option (List ParsedRow)
  | [] => none
  | header :: rows => parseRows (header.drop 2) rows

/-! ## The segmenter and the run -/

/-- The end of the transcript: the greatest utterance end time (0 when there
are no utterances). -/
def total_duration (utts : List Utterance) : ℚ :=
  utts.foldr (fun u acc => max u.end_time acc) 0

/-- The number of analysis windows: `ceil(total_duration / window_seconds)`. -/
def numWindows (utts : List Utterance) (w : ℚ) : ℕ :=
  ⌈total_duration utts / w⌉₊

/-- The text of the window `[a, b)`: the space-joined texts, in input order,
of the utterances whose span intersects the window. -/
def windowText (utts : List Utterance) (a b : ℚ) : String :=
  String.intercalate " "
    ((utts.filter (fun u => decide (u.start_time < b) && decide (a < u.end_time))).map
      (fun u => u.text))

/-- Modelled from the spec: `youtube_processor.extract_speech_segments` is not
among the sources (`main.py` line 81 only calls it).  Spec §4.1: reject
`window_seconds` outside `[10, 60]` with `InvalidConfiguration`, otherwise
produce `ceil(total_duration / window_seconds)` windows, window `k` spanning
`[k*w, min((k+1)*w, total_duration))`, each carrying the space-joined texts of
the utterances intersecting it. -/
def extract_speech_segments (utts : List Utterance) (w : ℚ) :
    Except PipeError (List Segment) :=
  if w < 10 ∨ 60 < w then .error .invalidConfiguration
  else .ok ((List.range (numWindows utts w)).map (fun k =>
    { index := k
      timestamp := (k : ℚ) * w
      text := windowText utts ((k : ℚ) * w) (min (((k : ℚ) + 1) * w) (total_duration utts))
      duration := min (((k : ℚ) + 1) * w) (total_duration utts) - (k : ℚ) * w }))

/-- Everything the run publishes on success (`main.py` lines 99-141): the
table, its emotion columns, the dominant emotion, the segment count and the
CSV export. -/
structure RunOutput where
  table : List AnalysisRecord
  cols : List String
  dominant : String
  segment_count : ℕ
  csv : List (List String)

/-- The analysis stage of the run body (`main.py` lines 87-141): score every
segment, build the DataFrame, compute the summary, render the CSV.  Any
exception aborts the stage (it is caught by the `except` of lines 160-162). -/
def analyze (segments : List Segment) (scorer : String → Except PipeError Dist) :
    Except PipeError RunOutput :=
  match scoreSegments scorer segments with
  | .error e => .error e
  | .ok rs =>
    match dominant_emotion rs with
    | .error e => .error e
    | .ok dom =>
        .ok { table := rs, cols := emotion_cols rs, dominant := dom,
              segment_count := segments.length, csv := to_csv rs }

/-- The run body from segmentation on (`main.py` lines 81-141). -/
def runFull (utts : List Utterance) (w : ℚ)
    (scorer : String → Except PipeError Dist) : Except PipeError RunOutput :=
  match extract_speech_segments utts w with
  | .error e => .error e
  | .ok segs => analyze segs scorer

/-- What the user sees: the URL-validation error path, the run-level `except`
handler, or a completed run. -/
inductive AppResult where
  | urlError
  | runError (e : PipeError)
  | success (o : RunOutput)

/-- The entry point guard and run (`main.py` lines 55-162): an empty or
invalid URL reports an error and returns before any processing; any exception
from the run body is caught and reported. -/
def appMain (url : String) (validate_youtube_url : String → Bool)
    (utts : List Utterance) (w : ℚ)
    (scorer : String → Except PipeError Dist) : AppResult :=
  if url = "" || !(validate_youtube_url url) then .urlError
  else
    match runFull utts w scorer with
    | .error e => .runError e
    | .ok o => .success o

/-! ## Helper lemmas -/

theorem idxmaxGo_mem (best : String × ℚ) (l : List (String × ℚ)) :
    idxmaxGo best l ∈ best :: l := by
  induction l generalizing best with
  | nil => simp [idxmaxGo]
  | cons p ps ih =>
      rw [idxmaxGo]
      by_cases hb : best.2 < p.2
      · rw [if_pos hb]
        rcases List.mem_cons.mp (ih p) with h | h
        · simp [h]
        · simp [h]
      · rw [if_neg hb]
        rcases List.mem_cons.mp (ih best) with h | h
        · simp [h]
        · simp [h]

theorem idxmaxGo_le (best : String × ℚ) (l : List (String × ℚ)) :
    ∀ q ∈ best :: l, q.2 ≤ (idxmaxGo best l).2 := by
  induction l generalizing best with
  | nil => intro q hq; rw [List.mem_singleton] at hq; subst hq; exact le_rfl
  | cons p ps ih =>
      intro q hq
      rw [idxmaxGo]
      have hb : best.2 ≤ (if best.2 < p.2 then p else best).2 := by
        by_cases h : best.2 < p.2
        · rw [if_pos h]; exact le_of_lt h
        · rw [if_neg h]
      have hp : p.2 ≤ (if best.2 < p.2 then p else best).2 := by
        by_cases h : best.2 < p.2
        · rw [if_pos h]
        · rw [if_neg h]; exact le_of_not_lt h
      rcases List.mem_cons.mp hq with h | h
      · subst h
        exact le_trans hb (ih _ _ (List.mem_cons_self _ _))
      · rcases List.mem_cons.mp h with h | h
        · subst h
          exact le_trans hp (ih _ _ (List.mem_cons_self _ _))
        · exact ih _ q (List.mem_cons.mpr (Or.inr h))

theorem idxmaxGo_first (best : String × ℚ) (l : List (String × ℚ)) :
    (best :: l).find? (fun q => decide (q.2 = (idxmaxGo best l).2))
      = some (idxmaxGo best l) := by
  induction l generalizing best with
  | nil => simp [idxmaxGo]
  | cons p ps ih =>
      rw [idxmaxGo]
      by_cases hb : best.2 < p.2
      · rw [if_pos hb]
        have hlt : best.2 < (idxmaxGo p ps).2 :=
          lt_of_lt_of_le hb (idxmaxGo_le p ps p (List.mem_cons_self _ _))
        rw [List.find?_cons_of_neg _ (by simp [ne_of_lt hlt]), ih p]
      · rw [if_neg hb]
        by_cases hbe : best.2 = (idxmaxGo best ps).2
        · have hfind := ih best
          rw [List.find?_cons_of_pos _ (by simp [hbe])] at hfind
          have hbest : best = idxmaxGo best ps := Option.some.inj hfind
          rw [List.find?_cons_of_pos _ (by simp [hbe.symm, ← hbest])]
          exact congrArg some hbest
        · have hbl : best.2 < (idxmaxGo best ps).2 :=
            lt_of_le_of_ne (idxmaxGo_le best ps best (List.mem_cons_self _ _)) hbe
          have hpl : p.2 < (idxmaxGo best ps).2 := lt_of_le_of_lt (le_of_not_lt hb) hbl
          have hfind := ih best
          rw [List.find?_cons_of_neg _ (by simp [hbe])] at hfind
          rw [List.find?_cons_of_neg _ (by simp [ne_of_lt hbl]),
            List.find?_cons_of_neg _ (by simp [ne_of_lt hpl])]
          exact hfind

theorem mem_foldl_addKey (l : List String) :
    ∀ (acc : List String) (x : String), x ∈ l.foldl addKey acc ↔ x ∈ acc ∨ x ∈ l := by
  induction l with
  | nil => intro acc x; simp
  | cons k ks ih =>
      intro acc x
      rw [List.foldl_cons, ih]
      constructor
      · rintro (h | h)
        · rw [addKey] at h
          by_cases hk : k ∈ acc
          · rw [if_pos hk] at h; exact Or.inl h
          · rw [if_neg hk] at h
            rcases List.mem_append.mp h with h | h
            · exact Or.inl h
            · rw [List.mem_singleton] at h; subst h; simp
        · simp [h]
      · have hacc : x ∈ acc → x ∈ addKey acc k := by
          intro h
          rw [addKey]
          by_cases hk : k ∈ acc
          · rwa [if_pos hk]
          · rw [if_neg hk]; exact List.mem_append.mpr (Or.inl h)
        rintro (h | h)
        · exact Or.inl (hacc h)
        · rcases List.mem_cons.mp h with h | h
          · subst h
            left
            rw [addKey]
            by_cases hk : x ∈ acc
            · rwa [if_pos hk]
            · rw [if_neg hk]; simp
          · exact Or.inr h

theorem foldl_addKey_nodup (l : List String) :
    ∀ acc : List String, acc.Nodup → (l.foldl addKey acc).Nodup := by
  induction l with
  | nil => intro acc h; simpa using h
  | cons k ks ih =>
      intro acc h
      rw [List.foldl_cons]
      apply ih
      rw [addKey]
      by_cases hk : k ∈ acc
      · rwa [if_pos hk]
      · rw [if_neg hk]
        simpa [List.nodup_append] using ⟨h, hk⟩

theorem emotion_cols_nodup (rs : List AnalysisRecord) : (emotion_cols rs).Nodup :=
  foldl_addKey_nodup _ [] List.nodup_nil

theorem mem_emotion_cols (rs : List AnalysisRecord) (x : String) :
    x ∈ emotion_cols rs ↔ ∃ r ∈ rs, x ∈ recKeys r := by
  rw [emotion_cols, mem_foldl_addKey]
  simp [allKeys, List.mem_flatten]

theorem alookup_mem_keys (x : String) (es : Dist) (v : ℚ) (h : alookup x es = some v) :
    x ∈ es.map Prod.fst := by
  induction es with
  | nil => simp [alookup] at h
  | cons p ps ih =>
      rw [alookup] at h
      by_cases hp : p.1 = x
      · simp [← hp]
      · rw [if_neg hp] at h
        simp [ih h]

theorem total_duration_nonneg (utts : List Utterance) : 0 ≤ total_duration utts := by
  induction utts with
  | nil => simp [total_duration]
  | cons u us ih =>
      rw [total_duration, List.foldr_cons]
      exact le_max_of_le_right ih

theorem range_telescope (g : ℕ → ℚ) (n : ℕ) :
    ((List.range n).map (fun k => g (k + 1) - g k)).sum = g n - g 0 := by
  induction n with
  | zero => simp
  | succ m ih => rw [List.range_succ]; simp [ih]

theorem charDigit_digitChar : ∀ d : ℕ, d < 10 → charDigit (digitChar d) = d := by decide

theorem digitChar_ne_slash : ∀ d : ℕ, d < 10 → digitChar d ≠ '/' := by decide

theorem digitChar_ne_dash : ∀ d : ℕ, d < 10 → digitChar d ≠ '-' := by decide

theorem natDigitsAux_digits :
    ∀ fuel n c, c ∈ natDigitsAux fuel n → ∃ d, d < 10 ∧ c = digitChar d := by
  intro fuel
  induction fuel with
  | zero => intro n c h; simp [natDigitsAux] at h
  | succ f ih =>
      intro n c h
      match n with
      | 0 => simp [natDigitsAux] at h
      | m + 1 =>
          rw [natDigitsAux] at h
          rcases List.mem_cons.mp h with h | h
          · exact ⟨(m + 1) % 10, Nat.mod_lt _ (by norm_num), h⟩
          · exact ih _ c h

theorem charsToNat_append_singleton (l : List Char) (c : Char) :
    charsToNat (l ++ [c]) = 10 * charsToNat l + charDigit c := by
  rw [charsToNat, charsToNat, List.foldl_append]
  rfl

theorem charsToNat_natDigitsAux :
    ∀ fuel n, n ≤ fuel → charsToNat ((natDigitsAux fuel n).reverse) = n := by
  intro fuel
  induction fuel with
  | zero =>
      intro n h
      have : n = 0 := Nat.le_zero.mp h
      subst this
      rfl
  | succ f ih =>
      intro n h
      match n with
      | 0 => rfl
      | m + 1 =>
          rw [natDigitsAux, List.reverse_cons, charsToNat_append_singleton]
          rw [ih ((m + 1) / 10) (by
            have : (m + 1) / 10 < m + 1 := Nat.div_lt_self (Nat.succ_pos m) (by norm_num)
            omega)]
          rw [charDigit_digitChar _ (Nat.mod_lt _ (by norm_num))]
          exact Nat.div_add_mod (m + 1) 10

theorem charsToNat_natToChars (n : ℕ) : charsToNat (natToChars n) = n := by
  rw [natToChars]
  by_cases h : n = 0
  · subst h; rw [if_pos rfl]; rfl
  · rw [if_neg h]; exact charsToNat_natDigitsAux n n le_rfl

theorem natToChars_digits (n : ℕ) :
    ∀ c ∈ natToChars n, ∃ d, d < 10 ∧ c = digitChar d := by
  rw [natToChars]
  by_cases h : n = 0
  · rw [if_pos h]
    intro c hc
    rw [List.mem_singleton] at hc
    exact ⟨0, by norm_num, by rw [hc]; rfl⟩
  · rw [if_neg h]
    intro c hc
    exact natDigitsAux_digits n n c (List.mem_reverse.mp hc)

theorem natToChars_ne_slash (n : ℕ) : ∀ c ∈ natToChars n, c ≠ '/' := by
  intro c hc
  obtain ⟨d, hd, rfl⟩ := natToChars_digits n c hc
  exact digitChar_ne_slash d hd

theorem natToChars_ne_dash (n : ℕ) : ∀ c ∈ natToChars n, c ≠ '-' := by
  intro c hc
  obtain ⟨d, hd, rfl⟩ := natToChars_digits n c hc
  exact digitChar_ne_dash d hd

theorem natToChars_ne_nil (n : ℕ) : natToChars n ≠ [] := by
  rw [natToChars]
  by_cases h : n = 0
  · rw [if_pos h]; simp
  · rw [if_neg h]
    match n, h with
    | m + 1, _ =>
        rw [natDigitsAux]
        simp

theorem charsToInt_intToChars (z : ℤ) : charsToInt (intToChars z) = z := by
  match z with
  | .ofNat n =>
      rw [intToChars]
      rcases hl : natToChars n with _ | ⟨c, cs⟩
      · exact absurd hl (natToChars_ne_nil n)
      · rw [charsToInt, if_neg (natToChars_ne_dash n c (by rw [hl]; simp)), ← hl,
          charsToNat_natToChars]
        rfl
  | .negSucc n =>
      rw [intToChars, charsToInt, if_pos rfl, charsToNat_natToChars]
      simp [Int.negSucc_eq]

theorem intToChars_ne_slash (z : ℤ) : ∀ c ∈ intToChars z, c ≠ '/' := by
  match z with
  | .ofNat n => rw [intToChars]; exact natToChars_ne_slash n
  | .negSucc n =>
      rw [intToChars]
      intro c hc
      rcases List.mem_cons.mp hc with h | h
      · rw [h]; decide
      · exact natToChars_ne_slash _ c h

theorem splitSlashPost_append (l r : List Char) (h : ∀ c ∈ l, c ≠ '/') :
    splitSlashPost (l ++ '/' :: r) = some r := by
  induction l with
  | nil => rw [List.nil_append, splitSlashPost, if_pos rfl]
  | cons c cs ih =>
      rw [List.cons_append, splitSlashPost, if_neg (h c (by simp))]
      exact ih (fun c' hc' => h c' (by simp [hc']))

theorem splitSlashPre_append (l r : List Char) (h : ∀ c ∈ l, c ≠ '/') :
    splitSlashPre (l ++ '/' :: r) = l := by
  induction l with
  | nil => rw [List.nil_append, splitSlashPre, if_pos rfl]
  | cons c cs ih =>
      rw [List.cons_append, splitSlashPre, if_neg (h c (by simp))]
      rw [ih (fun c' hc' => h c' (by simp [hc']))]

theorem parseRat_ratToStr (q : ℚ) : parseRat (ratToStr q) = q := by
  rw [parseRat, ratToStr]
  rw [show (String.mk (ratToChars q)).data = ratToChars q from rfl, ratToChars]
  rw [splitSlashPost_append _ _ (intToChars_ne_slash q.num)]
  show (charsToInt (splitSlashPre (intToChars q.num ++ '/' :: natToChars q.den)) : ℚ)
      / (charsToNat (natToChars q.den) : ℚ) = q
  rw [splitSlashPre_append _ _ (intToChars_ne_slash q.num), charsToInt_intToChars,
    charsToNat_natToChars]
  exact_mod_cast Rat.num_div_den q

theorem ratToStr_ne_empty (q : ℚ) : ratToStr q ≠ "" := by
  rw [ratToStr]
  intro h
  have hd := congrArg String.data h
  simp [ratToChars] at hd

/-- The restriction of a dict to the column list: what re-parsing an exported
row reconstructs (columns in header order, missing cells skipped). -/
def restrictKeys (cols : List String) (es : Dist) : Dist :=
  cols.filterMap (fun l => (alookup l es).map (fun v => (l, v)))

theorem restrictKeys_cons_none (c : String) (cs : List String) (es : Dist)
    (h : alookup c es = none) : restrictKeys (c :: cs) es = restrictKeys cs es := by
  rw [restrictKeys, restrictKeys, List.filterMap_cons, h]
  rfl

theorem restrictKeys_cons_some (c : String) (cs : List String) (es : Dist) (v : ℚ)
    (h : alookup c es = some v) :
    restrictKeys (c :: cs) es = (c, v) :: restrictKeys cs es := by
  rw [restrictKeys, restrictKeys, List.filterMap_cons, h]
  rfl

theorem alookup_restrictKeys (es : Dist) (x : String) :
    ∀ cols : List String, (∀ v, alookup x es = some v → x ∈ cols) →
      alookup x (restrictKeys cols es) = alookup x es := by
  intro cols
  induction cols with
  | nil =>
      intro hmem
      rcases he : alookup x es with _ | v
      · rfl
      · exact absurd (hmem v he) (by simp)
  | cons c cs ih =>
      intro hmem
      rcases hc : alookup c es with _ | v
      · rw [restrictKeys_cons_none c cs es hc]
        apply ih
        intro v hv
        rcases List.mem_cons.mp (hmem v hv) with h | h
        · subst h; rw [hv] at hc; exact absurd hc (by simp)
        · exact h
      · rw [restrictKeys_cons_some c cs es v hc, alookup]
        by_cases hxc : c = x
        · subst hxc; rw [if_pos rfl, hc]
        · rw [if_neg hxc]
          apply ih
          intro v' hv'
          rcases List.mem_cons.mp (hmem v' hv') with h | h
          · exact absurd h.symm hxc
          · exact h

theorem zip_map_self (l : List String) (f : String → String) :
    l.zip (l.map f) = l.map (fun x => (x, f x)) := by
  induction l with
  | nil => rfl
  | cons a as ih => simp [ih]

/-- What one exported row parses back to. -/
def parsedOf (cols : List String) (r : AnalysisRecord) : ParsedRow :=
  { timestamp := r.timestamp, text := r.text, emotions := restrictKeys cols r.emotions }

theorem parseRow_csvRow (cols : List String) (r : AnalysisRecord) :
    parseRow cols (csvRow cols r) = some (parsedOf cols r) := by
  rw [csvRow, parseRow, parsedOf]
  simp only [Option.some.injEq, ParsedRow.mk.injEq]
  refine ⟨parseRat_ratToStr r.timestamp, trivial, ?_⟩
  rw [zip_map_self, List.filterMap_map, restrictKeys]
  apply List.filterMap_congr
  intro l _
  rcases ha : alookup l r.emotions with _ | v
  · simp [Function.comp, csvCell, ha, parseCell]
  · simp [Function.comp, csvCell, ha, parseCell, ratToStr_ne_empty v, parseRat_ratToStr v]

theorem parseRows_map (cols : List String) (rs : List AnalysisRecord) :
    parseRows cols (rs.map (csvRow cols)) = some (rs.map (parsedOf cols)) := by
  induction rs with
  | nil => rfl
  | cons r rest ih => simp [parseRows, parseRow_csvRow, ih]

/-! ## Concrete inputs used by counterexamples and witnesses -/

/-- Two segments; scoring the first one fails. -/
def failSegments : List Segment := [⟨0, 0, "bad", 30⟩, ⟨1, 30, "fine", 30⟩]

/-- A scorer whose backend raises on the text "bad". -/
def failScorer : String → Except PipeError Dist :=
  fun t => if t = "bad" then .error (.scoringFailed "boom") else .ok [("joy", 1)]

/-- A scorer that always answers with a neutral distribution. -/
def neutralScorer : String → Except PipeError Dist := fun _ => .ok [("neutral", 1)]

/-- A scorer that always answers with an empty distribution. -/
def emptyScorer : String → Except PipeError Dist := fun _ => .ok []

/-- One row whose two labels tie at mean 1/2, with "joy" seen first. -/
def tieTable : List AnalysisRecord := [⟨0, "a", [("joy", 1/2), ("anger", 1/2)]⟩]

/-- One row with a single label. -/
def oneTable : List AnalysisRecord := [⟨0, "a", [("joy", 1)]⟩]

/-- One row, labels "joy" then "anger" in scorer order. -/
def headerTable : List AnalysisRecord := [⟨0, "hello", [("joy", 1), ("anger", 0)]⟩]

/-- Scenario D of the spec: label sets {joy, anger} and {joy, fear}. -/
def unionTable : List AnalysisRecord :=
  [⟨0, "a", [("joy", 1), ("anger", 0)]⟩, ⟨10, "b", [("joy", 1), ("fear", 0)]⟩]

/-- Scenario C of the spec: an unnormalized distribution summing to 0.4. -/
def unnormRecord : AnalysisRecord := ⟨0, "a", [("joy", 1/5), ("anger", 1/5)]⟩

/-- The one-row table holding `unnormRecord`. -/
def unnormTable : List AnalysisRecord := [unnormRecord]

/-- A two-segment scoring-loop input with a constant scorer. -/
def sampleSegments : List Segment := [⟨0, 0, "hello", 30⟩, ⟨1, 30, "world", 30⟩]

/-- The records the constant scorer produces for `sampleSegments`. -/
def sampleRecords : List AnalysisRecord :=
  [⟨0, "hello", [("joy", 1)]⟩, ⟨30, "world", [("joy", 1)]⟩]

/-- A single utterance spanning 20 seconds. -/
def sampleUtts : List Utterance := [⟨0, 20, "hi"⟩]

/-! ## Claim C1 -/

/-- C1, counterexample: with two segments whose first text makes the scorer
raise, the run body does not substitute a neutral distribution and publish a
complete table — it propagates the error and produces nothing. -/
theorem C1_counterexample :
    analyze failSegments failScorer = .error (.scoringFailed "boom") ∧
    (analyze failSegments failScorer).isOk = false := ⟨rfl, rfl⟩

/-- C1, amended: a per-segment scoring failure is not isolated.  The scoring
loop of `main.py` (lines 87-97) has no per-segment handler: the first failing
scorer call aborts the loop, the run-level handler (lines 160-162) reports
that single error, and no table at all is produced for the run — rather than
a neutral substitution with a flagged record. -/
theorem C1_amended (pre : List Segment) (s : Segment) (post : List Segment)
    (scorer : String → Except PipeError Dist) (e : PipeError)
    (hok : ∀ s' ∈ pre, ∃ d, scorer s'.text = .ok d)
    (hf : scorer s.text = .error e) :
    analyze (pre ++ s :: post) scorer = .error e := by
  have key : scoreSegments scorer (pre ++ s :: post) = .error e := by
    induction pre with
    | nil => rw [List.nil_append, scoreSegments, hf]
    | cons p ps ih =>
        obtain ⟨d, hd⟩ := hok p (List.mem_cons_self _ _)
        rw [List.cons_append, scoreSegments, hd,
          ih (fun s' hs' => hok s' (List.mem_cons.mpr (Or.inr hs')))]
  rw [analyze, key]

/-- C1, witness: the amended theorem applied to a concrete failing run. -/
theorem C1_witness :
    analyze ([] ++ (⟨0, 0, "bad", 30⟩ : Segment) :: [⟨1, 30, "fine", 30⟩]) failScorer
      = .error (.scoringFailed "boom") :=
  C1_amended [] ⟨0, 0, "bad", 30⟩ [⟨1, 30, "fine", 30⟩] failScorer
    (.scoringFailed "boom") (fun s' hs' => absurd hs' (by simp)) rfl

/-! ## Claim C2 -/

/-- C2, counterexample: in `tieTable` the labels "joy" and "anger" tie at
mean 1/2, "anger" is lexicographically smaller, yet `idxmax` returns "joy"
(the first column in first-seen order). -/
theorem C2_counterexample :
    dominant_emotion tieTable = .ok "joy" ∧
    colMean tieTable "joy" = colMean tieTable "anger" ∧
    "anger" < "joy" ∧ ("joy" : String) ≠ "anger" := by
  refine ⟨?_, ?_, ?_, by decide⟩
  · have h : scoredPairs tieTable = [("joy", 1/2), ("anger", 1/2)] := by
      simp +decide [scoredPairs, meanPairs, emotion_cols, allKeys, recKeys, addKey, tieTable,
        colMean, colValues, alookup, List.filterMap_cons]
    rw [dominant_emotion, h]
    norm_num [idxmaxGo]
  · simp +decide [colMean, colValues, tieTable, alookup, List.filterMap_cons]
  · rw [String.lt_iff_toList_lt]
    decide

/-- C2, amended: for every table whose NaN-skipped mean series is non-empty,
the summary's dominant emotion is a label whose (NaN-skipping) mean is
maximal, and among tied maxima it is the FIRST label in the table's column
order (first-seen order of the scorers' keys), not the lexicographically
smallest. -/
theorem C2_amended (rs : List AnalysisRecord) (h : scoredPairs rs ≠ []) :
    ∃ p : String × ℚ,
      p ∈ scoredPairs rs ∧
      dominant_emotion rs = .ok p.1 ∧
      (∀ q ∈ scoredPairs rs, q.2 ≤ p.2) ∧
      (scoredPairs rs).find? (fun q => decide (q.2 = p.2)) = some p := by
  rcases hsp : scoredPairs rs with _ | ⟨p, ps⟩
  · exact absurd hsp h
  · refine ⟨idxmaxGo p ps, ?_, ?_, ?_, ?_⟩
    · exact idxmaxGo_mem p ps
    · rw [dominant_emotion, hsp]
    · exact idxmaxGo_le p ps
    · exact idxmaxGo_first p ps

/-- C2, witness: the amended theorem applied to a concrete one-row table. -/
theorem C2_witness :
    ∃ p : String × ℚ,
      p ∈ scoredPairs oneTable ∧
      dominant_emotion oneTable = .ok p.1 ∧
      (∀ q ∈ scoredPairs oneTable, q.2 ≤ p.2) ∧
      (scoredPairs oneTable).find? (fun q => decide (q.2 = p.2)) = some p :=
  C2_amended oneTable (by
    simp +decide [scoredPairs, meanPairs, emotion_cols, allKeys, recKeys, addKey, oneTable,
      colMean, colValues, alookup, List.filterMap_cons])

/-! ## Claim C3 -/

/-- C3, counterexample: the export of a one-row table has header
`timestamp, text, joy, anger` — there is no `index` column
(`df.to_csv(index=False)`), and the label columns keep first-seen order
rather than the canonical lexicographic order. -/
theorem C3_counterexample :
    (to_csv headerTable).head? = some ["timestamp", "text", "joy", "anger"] ∧
    "index" ∉ ["timestamp", "text", "joy", "anger"] ∧
    ["timestamp", "text", "joy", "anger"] ≠ ["index", "timestamp", "text", "anger", "joy"] := by
  refine ⟨rfl, by decide, by decide⟩

/-- C3, amended: the tabular export has header columns
`timestamp, text, <label_1>, ..., <label_n>` — no `index` column, labels in
the table's first-seen column order — with one row per segment, and
re-parsing the export reconstructs every row's timestamp, text and
label-value mapping exactly. -/
theorem C3_amended (rs : List AnalysisRecord) :
    (to_csv rs).head? = some ("timestamp" :: "text" :: emotion_cols rs) ∧
    ∃ ps : List ParsedRow,
      parseCsv (to_csv rs) = some ps ∧
      ps.length = rs.length ∧
      ∀ i (hp : i < ps.length) (hr : i < rs.length),
        (ps.get ⟨i, hp⟩).timestamp = (rs.get ⟨i, hr⟩).timestamp ∧
        (ps.get ⟨i, hp⟩).text = (rs.get ⟨i, hr⟩).text ∧
        ∀ l, alookup l (ps.get ⟨i, hp⟩).emotions = alookup l (rs.get ⟨i, hr⟩).emotions := by
  constructor
  · rfl
  · refine ⟨rs.map (parsedOf (emotion_cols rs)), ?_, by simp, ?_⟩
    · rw [to_csv, parseCsv]
      show parseRows (emotion_cols rs) (rs.map (csvRow (emotion_cols rs))) = _
      exact parseRows_map _ _
    · intro i hp hr
      have hget : (rs.map (parsedOf (emotion_cols rs))).get ⟨i, hp⟩
          = parsedOf (emotion_cols rs) (rs.get ⟨i, hr⟩) := by
        simp [List.get_eq_getElem, List.getElem_map]
      rw [hget, parsedOf]
      refine ⟨rfl, rfl, ?_⟩
      intro l
      apply alookup_restrictKeys
      intro v hv
      exact (mem_emotion_cols rs l).mpr
        ⟨rs.get ⟨i, hr⟩, List.get_mem rs _ _,
          by rw [recKeys]; exact alookup_mem_keys l _ v hv⟩

/-- C3, witness: the amended theorem applied to a concrete one-row table. -/
theorem C3_witness :
    (to_csv headerTable).head? = some ("timestamp" :: "text" :: emotion_cols headerTable) ∧
    ∃ ps : List ParsedRow,
      parseCsv (to_csv headerTable) = some ps ∧
      ps.length = headerTable.length ∧
      ∀ i (hp : i < ps.length) (hr : i < headerTable.length),
        (ps.get ⟨i, hp⟩).timestamp = (headerTable.get ⟨i, hr⟩).timestamp ∧
        (ps.get ⟨i, hp⟩).text = (headerTable.get ⟨i, hr⟩).text ∧
        ∀ l, alookup l (ps.get ⟨i, hp⟩).emotions
          = alookup l (headerTable.get ⟨i, hr⟩).emotions :=
  C3_amended headerTable

/-! ## Claim C4 -/

/-- C4, counterexample: on scenario D's two rows ({joy, anger} then
{joy, fear}) the DataFrame's emotion columns are `joy, anger, fear` —
first-seen order, not the sorted `anger, fear, joy` — and the missing cell
(row 1, label "anger") is NaN, not 0.0. -/
theorem C4_counterexample :
    emotion_cols unionTable = ["joy", "anger", "fear"] ∧
    emotion_cols unionTable ≠ ["anger", "fear", "joy"] ∧
    dfCell unionTable 1 "anger" = none ∧
    dfCell unionTable 1 "anger" ≠ some 0 := by
  refine ⟨rfl, by decide, rfl, ?_⟩
  rw [show dfCell unionTable 1 "anger" = none from rfl]
  simp

/-- C4, amended: the table's emotion columns are the union of the rows' label
sets — each label appears exactly once, and a label is a column iff some row
carries it — ordered by FIRST APPEARANCE across the rows (never sorted
lexicographically); a label missing from a row yields a NaN cell, not 0.0:
on scenario D the columns are `joy, anger, fear` and the missing cell is
NaN. -/
theorem C4_amended :
    (∀ rs : List AnalysisRecord, (emotion_cols rs).Nodup) ∧
    (∀ (rs : List AnalysisRecord) (x : String),
        x ∈ emotion_cols rs ↔ ∃ r ∈ rs, x ∈ recKeys r) ∧
    emotion_cols unionTable = ["joy", "anger", "fear"] ∧
    dfCell unionTable 0 "fear" = none :=
  ⟨emotion_cols_nodup, mem_emotion_cols, rfl, rfl⟩

/-- C4, witness: the amended theorem's conjuncts at the concrete scenario-D
table. -/
theorem C4_witness :
    (emotion_cols unionTable).Nodup ∧
    ("fear" ∈ emotion_cols unionTable ↔ ∃ r ∈ unionTable, "fear" ∈ recKeys r) ∧
    emotion_cols unionTable = ["joy", "anger", "fear"] :=
  ⟨C4_amended.1 unionTable, C4_amended.2.1 unionTable "fear", C4_amended.2.2.1⟩

/-! ## Claim C5 -/

/-- C5: in the spec-modelled MatrixBuilder, every row of the built matrix
whose values are not all zero sums to 1.0 within 1e-3 after processing (the
scaled sum is exactly 1), even when the input distribution was unnormalized;
an all-zero row is left all-zero; and scenario C's input row
{joy: 0.2, anger: 0.2} becomes {joy: 0.5, anger: 0.5}. -/
theorem C5_holds :
    (∀ (rs : List AnalysisRecord) (row : List ℚ), row ∈ build_matrix rs →
        ¬ (∀ v ∈ row, v = 0) → |row.sum - 1| < 1/1000) ∧
    (∀ raw : List ℚ, (∀ v ∈ raw, v = 0) → normalizeRow raw = raw) ∧
    normalizeRow [1/5, 1/5] = [1/2, 1/2] := by
  have hmapsum : ∀ (s : ℚ) (l : List ℚ), (l.map (fun v => v / s)).sum = l.sum / s := by
    intro s l
    induction l with
    | nil => simp
    | cons a as iha =>
        rw [List.map_cons, List.sum_cons, List.sum_cons, iha]
        ring
  have hnorm : ∀ raw : List ℚ, ¬ (∀ v ∈ normalizeRow raw, v = 0) →
      |(normalizeRow raw).sum - 1| < 1/1000 := by
    intro raw hnz
    rw [normalizeRow] at hnz ⊢
    by_cases h1 : |raw.sum - 1| < 1/1000
    · rw [if_pos h1] at hnz ⊢
      exact h1
    · rw [if_neg h1] at hnz ⊢
      by_cases h2 : ∀ v ∈ raw, v = 0
      · rw [if_pos h2] at hnz
        exact absurd h2 hnz
      · rw [if_neg h2] at hnz ⊢
        by_cases h3 : raw.sum = 0
        · exfalso
          apply hnz
          intro v hv
          rw [List.mem_map] at hv
          obtain ⟨u, hu, rfl⟩ := hv
          rw [h3, div_zero]
        · rw [hmapsum raw.sum raw, div_self h3]
          norm_num
  refine ⟨?_, ?_, ?_⟩
  · intro rs row hrow hnz
    rw [build_matrix, List.mem_map] at hrow
    obtain ⟨r, hr, rfl⟩ := hrow
    exact hnorm _ hnz
  · intro raw h
    rw [normalizeRow]
    by_cases h1 : |raw.sum - 1| < 1/1000
    · rw [if_pos h1]
    · rw [if_neg h1, if_pos h]
  · have hsum : ([(1:ℚ)/5, 1/5]).sum = 2/5 := by norm_num
    rw [normalizeRow]
    rw [if_neg (by rw [hsum, abs_sub_lt_iff]; norm_num)]
    rw [if_neg (by
      intro hall
      have := hall (1/5) (by simp)
      norm_num at this)]
    rw [hsum]
    norm_num

/-- C5, witness: the theorem applied to scenario C's one-row table: its
processed row is not all-zero, so its sum is within 1e-3 of 1. -/
theorem C5_witness :
    |(normalizeRow [(1:ℚ)/5, 1/5]).sum - 1| < 1/1000 := by
  have hmem : normalizeRow [(1:ℚ)/5, 1/5] ∈ build_matrix unnormTable := by
    rw [show build_matrix unnormTable = [normalizeRow [(1:ℚ)/5, 1/5]] from rfl]
    exact List.mem_singleton.mpr rfl
  refine C5_holds.1 unnormTable (normalizeRow [(1:ℚ)/5, 1/5]) hmem ?_
  rw [C5_holds.2.2]
  intro hall
  have := hall (1/2) (by simp)
  norm_num at this

/-! ## Claim C6 -/

/-- C6, counterexample: on the empty segment list the run body raises (the
`idxmax` of the empty mean series), so the run aborts with an error instead
of returning a 0×0 matrix and a `None` dominant emotion. -/
theorem C6_counterexample :
    analyze [] neutralScorer = .error .emptyArgmax ∧
    (analyze [] neutralScorer).isOk = false := ⟨rfl, rfl⟩

/-- C6, amended: for every scorer, running the pipeline body on zero segments
reaches `avg_emotions.idxmax()` on an empty series, which raises; the
run-level handler reports the error, so the caller gets a failed run, not an
empty matrix with a `None` summary. -/
theorem C6_amended (scorer : String → Except PipeError Dist) :
    analyze [] scorer = .error .emptyArgmax := rfl

/-- C6, witness: the amended theorem at a concrete scorer. -/
theorem C6_witness : analyze [] emptyScorer = .error .emptyArgmax :=
  C6_amended emptyScorer

/-! ## Claim C7 -/

/-- C7: a `window_seconds` outside `[10, 60]` makes segmentation fail with
`InvalidConfiguration`, and the failure is surfaced to the caller before any
scoring begins: the run aborts with exactly that error for EVERY scorer (the
scorer is never consulted).  The segmenter is modelled from the spec; the UI
additionally confines the slider value to `[10, 60]` (`main.py` lines
43-48). -/
theorem C7_holds (w : ℚ) (hw : w < 10 ∨ 60 < w) (utts : List Utterance)
    (scorer : String → Except PipeError Dist) :
    extract_speech_segments utts w = .error .invalidConfiguration ∧
    runFull utts w scorer = .error .invalidConfiguration := by
  have hseg : extract_speech_segments utts w = .error .invalidConfiguration := by
    rw [extract_speech_segments, if_pos hw]
  exact ⟨hseg, by rw [runFull, hseg]⟩

/-- C7, witness: the theorem at the out-of-range value 70. -/
theorem C7_witness :
    extract_speech_segments [] 70 = .error .invalidConfiguration ∧
    runFull [] 70 neutralScorer = .error .invalidConfiguration :=
  C7_holds 70 (by norm_num) [] neutralScorer

/-! ## Claim C8 -/

/-- C8: for every `window_seconds` in `[10, 60]` and every utterance list the
segmenter (modelled from the spec) produces `ceil(total_duration / w)`
windows; window `i` starts at `i*w` and ends at `min((i+1)*w, total)`;
consecutive windows are contiguous (no gaps, no overlaps), the first starts
at 0, the last ends at `total_duration`, and the durations sum to
`total_duration` exactly. -/
theorem C8_holds (utts : List Utterance) (w : ℚ) (h10 : 10 ≤ w) (h60 : w ≤ 60) :
    ∃ segs : List Segment,
      extract_speech_segments utts w = .ok segs ∧
      segs.length = numWindows utts w ∧
      (∀ i (hi : i < segs.length),
          (segs.get ⟨i, hi⟩).timestamp = (i : ℚ) * w ∧
          (segs.get ⟨i, hi⟩).timestamp + (segs.get ⟨i, hi⟩).duration
            = min (((i : ℚ) + 1) * w) (total_duration utts)) ∧
      (∀ i (hi : i < segs.length) (hi1 : i + 1 < segs.length),
          (segs.get ⟨i, hi⟩).timestamp + (segs.get ⟨i, hi⟩).duration
            = (segs.get ⟨i + 1, hi1⟩).timestamp) ∧
      (∀ hi : 0 < segs.length, (segs.get ⟨0, hi⟩).timestamp = 0) ∧
      (∀ i (hi : i < segs.length), i + 1 = segs.length →
          (segs.get ⟨i, hi⟩).timestamp + (segs.get ⟨i, hi⟩).duration
            = total_duration utts) ∧
      (segs.map (fun s => s.duration)).sum = total_duration utts := by
  have hw : (0 : ℚ) < w := lt_of_lt_of_le (by norm_num) h10
  set T := total_duration utts with hT
  set n := numWindows utts w with hn
  have hT0 : 0 ≤ T := total_duration_nonneg utts
  have hTn : T ≤ (n : ℚ) * w := by
    have h1 : T / w ≤ (n : ℚ) := Nat.le_ceil _
    calc T = T / w * w := by field_simp
      _ ≤ (n : ℚ) * w := mul_le_mul_of_nonneg_right h1 (le_of_lt hw)
  have hkT : ∀ k : ℕ, k < n → (k : ℚ) * w < T := by
    intro k hk
    have hceil : (n : ℚ) < T / w + 1 := by
      have h2 := Nat.ceil_lt_add_one (div_nonneg hT0 (le_of_lt hw))
      exact_mod_cast h2
    have hkn : (k : ℚ) + 1 ≤ (n : ℚ) := by exact_mod_cast hk
    have hkd : (k : ℚ) < T / w := by linarith
    exact (lt_div_iff₀ hw).mp hkd
  have hok : ¬ (w < 10 ∨ 60 < w) := by
    push_neg
    exact ⟨h10, h60⟩
  refine ⟨(List.range n).map (fun k =>
    { index := k
      timestamp := (k : ℚ) * w
      text := windowText utts ((k : ℚ) * w) (min (((k : ℚ) + 1) * w) T)
      duration := min (((k : ℚ) + 1) * w) T - (k : ℚ) * w }), ?_, ?_, ?_, ?_, ?_, ?_, ?_⟩
  · rw [extract_speech_segments, if_neg hok]
  · simp
  · intro i hi
    rw [List.length_map, List.length_range] at hi
    rw [List.get_eq_getElem, List.getElem_map, List.getElem_range]
    exact ⟨rfl, by ring⟩
  · intro i hi hi1
    rw [List.length_map, List.length_range] at hi hi1
    rw [List.get_eq_getElem, List.get_eq_getElem, List.getElem_map, List.getElem_map,
      List.getElem_range, List.getElem_range]
    have hlt : ((i : ℚ) + 1) * w < T := by
      have := hkT (i + 1) hi1
      push_cast at this
      linarith
    simp only []
    rw [min_eq_left (le_of_lt hlt)]
    push_cast
    ring
  · intro hi
    rw [List.length_map, List.length_range] at hi
    rw [List.get_eq_getElem, List.getElem_map, List.getElem_range]
    simp
  · intro i hi hlast
    rw [List.length_map, List.length_range] at hi hlast
    rw [List.get_eq_getElem, List.getElem_map, List.getElem_range]
    have hge : T ≤ ((i : ℚ) + 1) * w := by
      have : ((i + 1 : ℕ) : ℚ) * w = ((i : ℚ) + 1) * w := by push_cast; ring
      rw [← this, hlast]
      exact hTn
    simp only []
    rw [min_eq_right hge]
    ring
  · rw [List.map_map]
    have hcongr : (List.range n).map
          ((fun s : Segment => s.duration) ∘ (fun k =>
            { index := k
              timestamp := (k : ℚ) * w
              text := windowText utts ((k : ℚ) * w) (min (((k : ℚ) + 1) * w) T)
              duration := min (((k : ℚ) + 1) * w) T - (k : ℚ) * w }))
        = (List.range n).map (fun k =>
            (fun j : ℕ => min ((j : ℚ) * w) T) (k + 1)
              - (fun j : ℕ => min ((j : ℚ) * w) T) k) := by
      apply List.map_congr_left
      intro k hk
      rw [List.mem_range] at hk
      show min (((k : ℚ) + 1) * w) T - (k : ℚ) * w
          = min (((k + 1 : ℕ) : ℚ) * w) T - min ((k : ℚ) * w) T
      rw [min_eq_left (le_of_lt (hkT k hk))]
      push_cast
      ring_nf
    rw [hcongr, range_telescope (fun j : ℕ => min ((j : ℚ) * w) T) n]
    rw [show ((0 : ℕ) : ℚ) * w = 0 by norm_num]
    rw [min_eq_right hTn, min_eq_left hT0]
    ring

/-- C8, witness: the theorem at one 20-second utterance and a 10-second
window. -/
theorem C8_witness :
    ∃ segs : List Segment,
      extract_speech_segments sampleUtts 10 = .ok segs ∧
      segs.length = numWindows sampleUtts 10 ∧
      (∀ i (hi : i < segs.length),
          (segs.get ⟨i, hi⟩).timestamp = (i : ℚ) * 10 ∧
          (segs.get ⟨i, hi⟩).timestamp + (segs.get ⟨i, hi⟩).duration
            = min (((i : ℚ) + 1) * 10) (total_duration sampleUtts)) ∧
      (∀ i (hi : i < segs.length) (hi1 : i + 1 < segs.length),
          (segs.get ⟨i, hi⟩).timestamp + (segs.get ⟨i, hi⟩).duration
            = (segs.get ⟨i + 1, hi1⟩).timestamp) ∧
      (∀ hi : 0 < segs.length, (segs.get ⟨0, hi⟩).timestamp = 0) ∧
      (∀ i (hi : i < segs.length), i + 1 = segs.length →
          (segs.get ⟨i, hi⟩).timestamp + (segs.get ⟨i, hi⟩).duration
            = total_duration sampleUtts) ∧
      (segs.map (fun s => s.duration)).sum = total_duration sampleUtts :=
  C8_holds sampleUtts 10 (by norm_num) (by norm_num)

/-! ## Claim C9 -/

/-- C9: an empty URL, or one the validator rejects, makes the entry point
report an error and return before the run body: the result is the URL error
for every utterance list, window length and scorer — no processing at all. -/
theorem C9_holds (url : String) (validate_youtube_url : String → Bool)
    (h : url = "" ∨ validate_youtube_url url = false)
    (utts : List Utterance) (w : ℚ) (scorer : String → Except PipeError Dist) :
    appMain url validate_youtube_url utts w scorer = .urlError := by
  rw [appMain]
  rcases h with h | h
  · rw [if_pos (by simp [h])]
  · rw [if_pos (by simp [h])]

/-- C9, witness: the theorem at the empty URL. -/
theorem C9_witness :
    appMain "" (fun _ => true) [] 30 neutralScorer = .urlError :=
  C9_holds "" (fun _ => true) (Or.inl rfl) [] 30 neutralScorer

/-! ## Claim C10 -/

/-- C10: whenever the scoring loop completes, the table has exactly one row
per segment, in the segmenter's output order: row `i` carries the timestamp
and text of segment `i`. -/
theorem C10_holds (segments : List Segment) (scorer : String → Except PipeError Dist)
    (rs : List AnalysisRecord) (h : scoreSegments scorer segments = .ok rs) :
    rs.length = segments.length ∧
      ∀ i (hi : i < rs.length) (hj : i < segments.length),
        (rs.get ⟨i, hi⟩).timestamp = (segments.get ⟨i, hj⟩).timestamp ∧
        (rs.get ⟨i, hi⟩).text = (segments.get ⟨i, hj⟩).text := by
  induction segments generalizing rs with
  | nil =>
      rw [scoreSegments] at h
      injection h with h
      subst h
      exact ⟨rfl, fun i hi hj => absurd hi (by simp)⟩
  | cons s rest ih =>
      rw [scoreSegments] at h
      rcases hs : scorer s.text with e | emo
      · rw [hs] at h
        simp at h
      · rw [hs] at h
        rcases hr : scoreSegments scorer rest with e' | rs'
        · rw [hr] at h
          simp at h
        · rw [hr] at h
          injection h with h
          subst h
          obtain ⟨hlen, hfields⟩ := ih rs' hr
          refine ⟨by simp [hlen], ?_⟩
          intro i hi hj
          match i with
          | 0 => exact ⟨rfl, rfl⟩
          | i' + 1 =>
              exact hfields i'
                (by simp only [List.length_cons] at hi; omega)
                (by simp only [List.length_cons] at hj; omega)

/-- C10, witness: the theorem at a concrete two-segment run with a constant
scorer. -/
theorem C10_witness :
    sampleRecords.length = sampleSegments.length ∧
      ∀ i (hi : i < sampleRecords.length) (hj : i < sampleSegments.length),
        (sampleRecords.get ⟨i, hi⟩).timestamp = (sampleSegments.get ⟨i, hj⟩).timestamp ∧
        (sampleRecords.get ⟨i, hi⟩).text = (sampleSegments.get ⟨i, hj⟩).text :=
  C10_holds sampleSegments (fun _ => .ok [("joy", 1)]) sampleRecords rfl

end EmotionHeatmap
